import Mathlib

/-!
Verification of the coffee-blog backend (`src/app.py`): the document
chunking step, the similarity retrieval function, the prompt composer,
the startup credential check and the `/chat` request handler.

Text is modelled as `List Char` (Python `str`); similarity scores and
embedding components are modelled as `ℚ` (the ordering/stability claims
do not depend on floating-point peculiarities, only on the scores being
a deterministic linearly ordered value).  External collaborators
(embedding service, generation service) are oracle parameters.
-/

namespace CoffeeBlog

/-! ## Chunker (src/app.py, `load_documents_on_startup`, lines 100-115) -/

/-- ASCII whitespace characters stripped by Python `str.strip()`. -/
def isPySpace (c : Char) : Bool :=
  c = ' ' || c = '\t' || c = '\n' || c = '\r' || c = '\x0b' || c = '\x0c'

/-- Python `s.strip()`: drop whitespace from both ends. -/
def pyStrip (s : List Char) : List Char :=
  ((s.dropWhile isPySpace).reverse.dropWhile isPySpace).reverse

/-- Python `s.split('\n\n')`: greedy left-to-right split on each
non-overlapping occurrence of a blank line (two consecutive newlines). -/
def splitPara : List Char → List (List Char)
  | [] => [[]]
  | '\n' :: '\n' :: rest => [] :: splitPara rest
  | c :: rest => (c :: (splitPara rest).headI) :: (splitPara rest).tail

/-- `paragraphs = [p.strip() for p in all_raw_text.split('\n\n') if p.strip()]`
(line 100). -/
def paragraphsOf (text : List Char) : List (List Char) :=
  ((splitPara text).map pyStrip).filter (fun p => p ≠ [])

/-- Python `sep.join(parts)`. -/
def joinSep (sep : List Char) : List (List Char) → List Char
  | [] => []
  | [g] => g
  | g :: gs => g ++ sep ++ joinSep sep gs

/-- `"\n".join(parts)` — the separator used inside a chunk (lines 108, 115). -/
def joinNl (parts : List (List Char)) : List Char :=
  joinSep ['\n'] parts

/-- Sum of the lengths of the paragraphs in the buffer: the quantity the
code tracks as `current_chunk_len` (it excludes separators). -/
def sumLens (parts : List (List Char)) : Nat :=
  (parts.map List.length).sum

/-- One iteration of the greedy packing loop (lines 105-113).  State is
`(current_chunk_parts, current_chunk_len)`; the result is the list of
chunks flushed by this iteration (at group level) together with the new
state.  The test mirrors line 106:
`current_chunk_len + len(paragraph) + len(current_chunk_parts) + 1 > max_chunk_chars`. -/
def chunkStep (max_chunk_chars : Nat) (st : List (List Char) × Nat) (p : List Char) :
    List (List (List Char)) × (List (List Char) × Nat) :=
  if st.2 + p.length + st.1.length + 1 > max_chunk_chars then
    ((if st.1 = [] then [] else [st.1]), ([p], p.length))
  else
    ([], (st.1 ++ [p], st.2 + p.length))

/-- The packing loop over the paragraph list, with the trailing flush of
a non-empty buffer (lines 114-115).  The result is the list of chunks at
group level: each group is the list of paragraphs joined into one chunk. -/
def chunkGroupsAux (max_chunk_chars : Nat) :
    List (List Char) × Nat → List (List Char) → List (List (List Char))
  | st, [] => if st.1 = [] then [] else [st.1]
  | st, p :: ps =>
      (chunkStep max_chunk_chars st p).1 ++
        chunkGroupsAux max_chunk_chars (chunkStep max_chunk_chars st p).2 ps

/-- Chunking at group level, starting from the empty buffer. -/
def chunkGroups (max_chunk_chars : Nat) (text : List Char) : List (List (List Char)) :=
  chunkGroupsAux max_chunk_chars ([], 0) (paragraphsOf text)

/-- `final_chunks` (lines 101-115): the chunking step of
`load_documents_on_startup`, parameterised by `max_chunk_chars`
(the code fixes it to 1000 at line 102). -/
def final_chunks (max_chunk_chars : Nat) (text : List Char) : List (List Char) :=
  (chunkGroups max_chunk_chars text).map joinNl

/-! ## Chunk store and retrieval (src/app.py, lines 62-84, 117-130) -/

/-- An entry of `document_data`: `{'text': ..., 'embedding': ...}`.  The
retrieval code guards on `doc_chunk['embedding'] is not None` (line 80),
so the data model allows an absent embedding. -/
structure Chunk where
  text : List Char
  embedding : Option (List ℚ)
deriving DecidableEq

/-- `np.dot` of two equal-length 1-D vectors (line 81). -/
def dot (a b : List ℚ) : ℚ :=
  (List.zipWith (fun x y => x * y) a b).sum

/-- The `similarities` list built by `find_relevant_chunks` (lines 78-82):
one `(similarity, text)` pair per stored chunk whose embedding is present,
in store order. -/
def sims (q : List ℚ) (store : List Chunk) : List (ℚ × List Char) :=
  store.filterMap (fun c => c.embedding.map (fun e => (dot q e, c.text)))

/-- Insert into a descending-sorted list, placing the new element after
every element with a strictly greater key: with `sortDescBy` below this
models Python `list.sort(key=..., reverse=True)`, which is a stable sort
— on equal keys the earlier element stays first. -/
def insertDescBy {α : Type} (key : α → ℚ) (x : α) : List α → List α
  | [] => [x]
  | y :: ys => if key x < key y then y :: insertDescBy key x ys else x :: y :: ys

/-- Stable descending sort by `key` (model of
`similarities.sort(key=lambda x: x[0], reverse=True)`, line 83).  Python's
sort is stable and `reverse=True` preserves the original order of
key-equal elements; a stable descending sort is unique, and stability of
this model is proved below (`sortDescBy_stable`). -/
def sortDescBy {α : Type} (key : α → ℚ) : List α → List α
  | [] => []
  | x :: xs => insertDescBy key x (sortDescBy key xs)

/-- `find_relevant_chunks(query_embedding, num_results)` (lines 75-84).
`query_embedding` is `None` when the query embedding call failed
(`get_embedding` returns `None` on error, line 73). -/
def find_relevant_chunks (query_embedding : Option (List ℚ)) (store : List Chunk)
    (num_results : Nat) : List (List Char) :=
  match query_embedding with
  | none => []
  | some q =>
    if store = [] then []
    else ((sortDescBy Prod.fst (sims q store)).take num_results).map Prod.snd

/-- `sims` entries tagged with their position (relative store order of
the chunks that participate in ranking). -/
def simsIdx (q : List ℚ) (store : List Chunk) : List (Nat × ℚ × List Char) :=
  (sims q store).enum

/-- The ranked list with positions kept, for stating stability. -/
def rankedIdx (q : List ℚ) (store : List Chunk) : List (Nat × ℚ × List Char) :=
  sortDescBy (fun e => e.2.1) (simsIdx q store)

/-- `a` must precede `b` in a stable descending ranking: strictly larger
score, or equal score and earlier original position. -/
def beats (a b : Nat × ℚ × List Char) : Prop :=
  b.2.1 < a.2.1 ∨ (a.2.1 = b.2.1 ∧ a.1 < b.1)

/-- `load_documents_on_startup` (lines 86-131), from the point where the
raw concatenated text is in hand (file reading is an I/O boundary).
`get_embedding` is the external embedding oracle: `none` models a raised
exception at lines 119-123; only successful chunks are appended (124-127). -/
def load_documents_on_startup (get_embedding : List Char → Option (List ℚ))
    (all_raw_text : List Char) : List Chunk :=
  if pyStrip all_raw_text = [] then []
  else
    (final_chunks 1000 all_raw_text).filterMap
      (fun t => (get_embedding t).map (fun v => ({ text := t, embedding := some v } : Chunk)))

/-! ## Prompt composition and the /chat handler (src/app.py, lines 185-221) -/

/-- Opening of the f-string template at lines 201-203, up to
`{combined_context}`. -/
def bg_header : List Char :=
  "\n        **BACKGROUND INFORMATION (from documents):**\n        ".toList

/-- Remainder of the f-string template at lines 203-210, after
`{combined_context}`. -/
def bg_instructions : List Char :=
  ("\n        ---\n        **INSTRUCTIONS:**\n        Based on the BACKGROUND INFORMATION provided above (if any), answer the following user question.\n        - If the user's question can be directly answered *only* by the BACKGROUND INFORMATION, use only that information.\n        - If the BACKGROUND INFORMATION does not contain the answer, or if the question is general and not directly related to the provided context, answer as a general-purpose AI.\n        - If you are specifically asked for information that is explicitly stated as being in the BACKGROUND INFORMATION but is not found, clearly state that the information is not available in the provided document.\n        ").toList

/-- `context_prompt_part` (lines 198-210): empty unless `retrieved_context`
is non-empty, in which case the retrieved texts are joined with
`"\n---\n"` and wrapped in the background/instructions template. -/
def context_prompt_part (retrieved_context : List (List Char)) : List Char :=
  if retrieved_context = [] then []
  else bg_header ++ joinSep ("\n---\n".toList) retrieved_context ++ bg_instructions

/-- `full_prompt` (line 212):
`f"{context_prompt_part}\n\n**USER QUESTION:** {user_message}\n\n**AI RESPONSE:**"`. -/
def full_prompt (retrieved_context : List (List Char)) (user_message : List Char) : List Char :=
  context_prompt_part retrieved_context ++ "\n\n**USER QUESTION:** ".toList ++
    user_message ++ "\n\n**AI RESPONSE:**".toList

/-- A JSON value as produced by Flask's `request.json` for the
`'message'` field. -/
inductive JVal where
  | null : JVal
  | bool (b : Bool) : JVal
  | num (q : ℚ) : JVal
  | str (s : List Char) : JVal
  | arr (xs : List JVal) : JVal
  | obj (n : Nat) : JVal

/-- Python truthiness of a JSON value (`if not user_message`, line 189):
`None`, `False`, `0`, `""`, `[]` and `{}` are falsy.  An object is
represented only by its number of keys, which is all truthiness needs. -/
def truthy : JVal → Bool
  | JVal.null => false
  | JVal.bool b => b
  | JVal.num q => if q = 0 then false else true
  | JVal.str s => if s = [] then false else true
  | JVal.arr [] => false
  | JVal.arr (_ :: _) => true
  | JVal.obj n => if n = 0 then false else true

/-- Body of the 400 response at line 190. -/
def no_msg_error : List Char := "Error: No message provided.".toList

/-- Body of the caught-generation-failure response at line 218. -/
def gen_error_msg (e : List Char) : List Char :=
  "Error communicating with AI. Please try again. (Details: ".toList ++ e ++ ")".toList

/-- The `/chat` handler (lines 185-221), returning (HTTP status, body of
the `response` field).  `render` models Python str interpolation of the
message value (identity on strings as used in practice); `get_embedding`
and `generate_content` are the external oracles; `document_data` is the
store built at startup.  A generation failure is caught and turned into
a normal 200 response carrying an error string (lines 214-219). -/
def chat (render : JVal → List Char) (get_embedding : List Char → Option (List ℚ))
    (generate_content : List Char → Except (List Char) (List Char))
    (document_data : List Chunk) (message : Option JVal) : Nat × List Char :=
  match message with
  | none => (400, no_msg_error)
  | some v =>
    if truthy v = false then (400, no_msg_error)
    else
      let user_message := render v
      let retrieved_context :=
        if document_data = [] then []
        else
          match get_embedding user_message with
          | none => []
          | some qe => find_relevant_chunks (some qe) document_data 3
      match generate_content (full_prompt retrieved_context user_message) with
      | Except.ok t => (200, t)
      | Except.error e => (200, gen_error_msg e)

/-! ## Startup (src/app.py, lines 30-35 and 133-134) -/

/-- The `ValueError` message raised at line 33. -/
def key_error_msg : String :=
  "GOOGLE_API_KEY not found in .env file or environment variables. Please get one from Google AI Studio."

/-- Module-level startup: `GOOGLE_API_KEY = os.getenv(...)` followed by
`if not GOOGLE_API_KEY: raise ValueError(...)` (lines 30-33; Python
truthiness makes both an absent and an empty value fatal), and only then
`load_documents_on_startup()` (lines 133-134).  A raise is modelled as
`Except.error`; no store is built in that branch. -/
def startup (google_api_key : Option String)
    (get_embedding : List Char → Option (List ℚ)) (all_raw_text : List Char) :
    Except String (List Chunk) :=
  match google_api_key with
  | none => Except.error key_error_msg
  | some k =>
    if k = "" then Except.error key_error_msg
    else Except.ok (load_documents_on_startup get_embedding all_raw_text)

/-! ## Concrete inputs used by counterexamples and witnesses -/

/-- The two-paragraph input `"a\n\nb"`. -/
def cx_text : List Char := ['a', '\n', '\n', 'b']

/-- The append condition as claim C3 states it: current length including
separators, plus the new paragraph, plus the one separator joining it. -/
def claim_append_cond (max_chunk_chars : Nat) (parts : List (List Char)) (p : List Char) :
    Prop :=
  (joinNl parts).length + p.length + 1 ≤ max_chunk_chars

/-! ## Lemmas about the chunker -/

theorem joinNl_length : ∀ parts : List (List Char), parts ≠ [] →
    (joinNl parts).length + 1 = sumLens parts + parts.length
  | [], h => absurd rfl h
  | [g], _ => by simp [joinNl, joinSep, sumLens]
  | g :: g2 :: t, _ => by
      have ih := joinNl_length (g2 :: t) (by simp)
      simp only [joinNl, joinSep, sumLens, List.map_cons, List.sum_cons,
        List.length_cons] at ih ⊢
      simp only [List.length_append, List.length_cons, List.length_nil]
      omega

theorem sumLens_append_single (parts : List (List Char)) (p : List Char) :
    sumLens (parts ++ [p]) = sumLens parts + p.length := by
  simp [sumLens]

/-- Unfolding of `chunkStep` in the flush case (the test at line 106 fires). -/
theorem chunkStep_flush {m : Nat} {st : List (List Char) × Nat} {p : List Char}
    (h : st.2 + p.length + st.1.length + 1 > m) :
    chunkStep m st p = ((if st.1 = [] then [] else [st.1]), ([p], p.length)) := by
  simp only [chunkStep, if_pos h]

/-- Unfolding of `chunkStep` in the append case (the test at line 106 fails). -/
theorem chunkStep_app {m : Nat} {st : List (List Char) × Nat} {p : List Char}
    (h : ¬ st.2 + p.length + st.1.length + 1 > m) :
    chunkStep m st p = ([], (st.1 ++ [p], st.2 + p.length)) := by
  simp only [chunkStep, if_neg h]

/-- The groups produced by the packing loop concatenate to the buffer
followed by the remaining paragraphs: nothing is dropped or duplicated. -/
theorem chunkGroupsAux_flatten (m : Nat) (ps : List (List Char)) :
    ∀ st : List (List Char) × Nat, (chunkGroupsAux m st ps).flatten = st.1 ++ ps := by
  induction ps with
  | nil =>
      intro st
      by_cases hnil : st.1 = [] <;> simp [chunkGroupsAux, hnil]
  | cons p ps ih =>
      intro st
      simp only [chunkGroupsAux]
      by_cases hc : st.2 + p.length + st.1.length + 1 > m
      · rw [chunkStep_flush hc]
        by_cases hnil : st.1 = [] <;> simp [hnil, ih]
      · rw [chunkStep_app hc]
        simp [ih]

/-- Every group produced by the packing loop is non-empty. -/
theorem ne_nil_of_mem_chunkGroupsAux (m : Nat) (ps : List (List Char)) :
    ∀ st : List (List Char) × Nat, ∀ g ∈ chunkGroupsAux m st ps, g ≠ [] := by
  induction ps with
  | nil =>
      intro st g hg
      by_cases hnil : st.1 = []
      · simp [chunkGroupsAux, hnil] at hg
      · simp [chunkGroupsAux, hnil] at hg
        simpa [hg] using hnil
  | cons p ps ih =>
      intro st g hg
      simp only [chunkGroupsAux] at hg
      by_cases hc : st.2 + p.length + st.1.length + 1 > m
      · rw [chunkStep_flush hc] at hg
        by_cases hnil : st.1 = []
        · simp [hnil] at hg
          exact ih _ g hg
        · simp [hnil] at hg
          rcases hg with hg | hg
          · simpa [hg] using hnil
          · exact ih _ g hg
      · rw [chunkStep_app hc] at hg
        simp at hg
        exact ih _ g hg

/-- Size invariant of the packing loop: every emitted group, joined with
single newlines, stays strictly under the limit, unless it is a single
(possibly oversized) paragraph. -/
theorem chunkGroupsAux_size (m : Nat) (ps : List (List Char)) :
    ∀ (parts : List (List Char)) (curLen : Nat),
      curLen = sumLens parts →
      (parts = [] ∨ (joinNl parts).length + 1 ≤ m ∨ ∃ p, parts = [p]) →
      ∀ g ∈ chunkGroupsAux m (parts, curLen) ps,
        (joinNl g).length + 1 ≤ m ∨ ∃ p, g = [p] := by
  induction ps with
  | nil =>
      intro parts curLen hlen hinv g hg
      by_cases hnil : parts = []
      · simp [chunkGroupsAux, hnil] at hg
      · simp [chunkGroupsAux, hnil] at hg
        subst hg
        rcases hinv with h | h | h
        · exact absurd h hnil
        · exact Or.inl h
        · exact Or.inr h
  | cons p ps ih =>
      intro parts curLen hlen hinv g hg
      simp only [chunkGroupsAux] at hg
      by_cases hc : curLen + p.length + parts.length + 1 > m
      · rw [chunkStep_flush hc] at hg
        by_cases hnil : parts = []
        · simp [hnil] at hg
          exact ih [p] p.length (by simp [sumLens]) (Or.inr (Or.inr ⟨p, rfl⟩)) g hg
        · simp [hnil] at hg
          rcases hg with hg | hg
          · subst hg
            rcases hinv with h | h | h
            · exact absurd h hnil
            · exact Or.inl h
            · exact Or.inr h
          · exact ih [p] p.length (by simp [sumLens]) (Or.inr (Or.inr ⟨p, rfl⟩)) g hg
      · rw [chunkStep_app hc] at hg
        simp only [List.nil_append] at hg
        refine ih (parts ++ [p]) (curLen + p.length) ?_ ?_ g hg
        · rw [sumLens_append_single, hlen]
        · refine Or.inr (Or.inl ?_)
          have hne : parts ++ [p] ≠ [] := by simp
          have hj := joinNl_length (parts ++ [p]) hne
          rw [sumLens_append_single] at hj
          simp only [List.length_append, List.length_cons, List.length_nil] at hj
          omega

/-! ## Theorems for the claims about the chunker -/

/-- Claim C1, counterexample: for the input `"a\n\nb"` the two paragraphs
are packed into the single chunk `"a\nb"` (joined by a single newline), so
re-concatenating the chunks with blank-line separators and re-splitting
into trimmed non-empty paragraphs yields `["a\nb"]`, not the original
`["a", "b"]`. -/
theorem claim_C1_cx :
    paragraphsOf (joinSep ['\n', '\n'] (final_chunks 1000 cx_text)) ≠ paragraphsOf cx_text := by
  decide

/-- Claim C1 (amended): every chunk produced by the chunking step is
non-empty, and the chunker partitions the original ordered sequence of
non-empty trimmed paragraphs into consecutive groups — no paragraph
dropped, none duplicated — each chunk being its group joined with single
newlines (so blank-line re-splitting recovers the paragraphs only when
every group is a singleton). -/
theorem claim_C1_amended (max_chunk_chars : Nat) (text : List Char) :
    (∀ c ∈ final_chunks max_chunk_chars text, c ≠ []) ∧
    (chunkGroups max_chunk_chars text).flatten = paragraphsOf text ∧
    final_chunks max_chunk_chars text = (chunkGroups max_chunk_chars text).map joinNl := by
  refine ⟨?_, ?_, rfl⟩
  · intro c hc
    rcases List.mem_map.1 hc with ⟨g, hg, rfl⟩
    have hgne := ne_nil_of_mem_chunkGroupsAux max_chunk_chars (paragraphsOf text) ([], 0) g hg
    rcases g with _ | ⟨h, t⟩
    · exact absurd rfl hgne
    have hmem : h ∈ (chunkGroups max_chunk_chars text).flatten :=
      List.mem_flatten.2 ⟨h :: t, hg, List.mem_cons_self _ _⟩
    rw [chunkGroups, chunkGroupsAux_flatten] at hmem
    simp only [List.nil_append] at hmem
    have hne : h ≠ [] := by
      have := (List.mem_filter.1 hmem).2
      simpa using this
    cases t with
    | nil => simpa [joinNl, joinSep] using hne
    | cons g2 t2 => simp [joinNl, joinSep]
  · rw [chunkGroups, chunkGroupsAux_flatten]
    simp

/-- Witness for claim C1's amended theorem at the concrete input
`"a\n\nb"`, whose single chunk `"a\nb"` is non-empty. -/
theorem claim_C1_amended_witness : (['a', '\n', 'b'] : List Char) ≠ [] :=
  (claim_C1_amended 1000 cx_text).1 ['a', '\n', 'b'] (by decide)

/-- Claim C2: for any bound ≥ 1, every chunk either fits in the bound
(its length counts the single-newline separators) or is a single original
paragraph that alone exceeds the bound — no paragraph is ever split. -/
theorem claim_C2 (max_chunk_chars : Nat) (text : List Char)
    (hmax : 1 ≤ max_chunk_chars) :
    ∀ c ∈ final_chunks max_chunk_chars text,
      c.length ≤ max_chunk_chars ∨
        (max_chunk_chars < c.length ∧ c ∈ paragraphsOf text) := by
  intro c hc
  rcases List.mem_map.1 hc with ⟨g, hg, rfl⟩
  have hsize := chunkGroupsAux_size max_chunk_chars (paragraphsOf text) [] 0
    (by simp [sumLens]) (Or.inl rfl) g hg
  rcases hsize with h | ⟨p, rfl⟩
  · exact Or.inl (by omega)
  · have hjp : joinNl [p] = p := by simp [joinNl, joinSep]
    rw [hjp]
    rcases le_or_lt p.length max_chunk_chars with h | h
    · exact Or.inl h
    · refine Or.inr ⟨h, ?_⟩
      have hmem : p ∈ (chunkGroups max_chunk_chars text).flatten :=
        List.mem_flatten.2 ⟨[p], hg, by simp⟩
      rw [chunkGroups, chunkGroupsAux_flatten] at hmem
      simpa using hmem

/-- Witness for claim C2 at `max_chunk_chars = 1000` and input `"a\n\nb"`,
whose single chunk is `"a\nb"`. -/
theorem claim_C2_witness :
    (['a', '\n', 'b'] : List Char).length ≤ 1000 ∨
      (1000 < (['a', '\n', 'b'] : List Char).length ∧
        (['a', '\n', 'b'] : List Char) ∈ paragraphsOf cx_text) :=
  claim_C2 1000 cx_text (by decide) ['a', '\n', 'b'] (by decide)

set_option maxRecDepth 4000 in
/-- Claim C3, counterexample: with the buffer holding one paragraph of
499 characters and a new paragraph of 500 characters, the claimed
condition 499 + 500 + 1 ≤ 1000 holds, so the claim says the paragraph is
appended; the code's test `current_chunk_len + len(paragraph) +
len(current_chunk_parts) + 1 > max_chunk_chars` (line 106) computes
499 + 500 + 1 + 1 = 1001 > 1000 and flushes instead. -/
theorem claim_C3_cx :
    claim_append_cond 1000 [List.replicate 499 'a'] (List.replicate 500 'b') ∧
      (chunkStep 1000 ([List.replicate 499 'a'], 499) (List.replicate 500 'b')).2.1 ≠
        [List.replicate 499 'a', List.replicate 500 'b'] := by
  constructor
  · show (joinNl [List.replicate 499 'a']).length + (List.replicate 500 'b').length + 1 ≤ 1000
    decide
  · decide

/-- Claim C3 (amended): the loop body appends the paragraph to a
non-empty buffer exactly when currentLength (including separators) +
len(paragraph) + separatorOverhead does not exceed `max_chunk_chars - 1`
— the code counts one separator more than joining actually adds, so it
reserves one extra character; otherwise it flushes the buffer and starts
a new one holding only this paragraph. -/
theorem claim_C3_amended (max_chunk_chars : Nat) (parts : List (List Char))
    (curLen : Nat) (p : List Char) (hne : parts ≠ []) (hlen : curLen = sumLens parts) :
    ((joinNl parts).length + p.length + 2 ≤ max_chunk_chars →
      chunkStep max_chunk_chars (parts, curLen) p =
        ([], (parts ++ [p], curLen + p.length))) ∧
    (max_chunk_chars < (joinNl parts).length + p.length + 2 →
      chunkStep max_chunk_chars (parts, curLen) p = ([parts], ([p], p.length))) := by
  have hj := joinNl_length parts hne
  constructor
  · intro h
    have hcond : ¬ (curLen + p.length + parts.length + 1 > max_chunk_chars) := by omega
    simp [chunkStep, hcond]
  · intro h
    have hcond : curLen + p.length + parts.length + 1 > max_chunk_chars := by omega
    simp [chunkStep, hcond, hne]

/-- Witness for claim C3's amended theorem: with budget 10, buffer
`["a"]` and paragraph `"b"`, the paragraph is appended. -/
theorem claim_C3_amended_witness :
    chunkStep 10 ([['a']], 1) ['b'] = ([], ([['a'], ['b']], 2)) :=
  (claim_C3_amended 10 [['a']] 1 ['b'] (by decide) (by decide)).1 (by decide)

/-! ## Lemmas about the stable descending sort -/

theorem insertDescBy_perm {α : Type} (key : α → ℚ) (x : α) :
    ∀ l : List α, (insertDescBy key x l).Perm (x :: l) := by
  intro l
  induction l with
  | nil => exact List.Perm.refl _
  | cons y ys ih =>
      simp only [insertDescBy]
      by_cases hc : key x < key y
      · rw [if_pos hc]
        exact (ih.cons y).trans (List.Perm.swap x y ys)
      · rw [if_neg hc]

theorem sortDescBy_perm {α : Type} (key : α → ℚ) :
    ∀ l : List α, (sortDescBy key l).Perm l := by
  intro l
  induction l with
  | nil => exact List.Perm.refl _
  | cons x xs ih =>
      exact (insertDescBy_perm key x (sortDescBy key xs)).trans (ih.cons x)

theorem insertDescBy_sorted {α : Type} (key : α → ℚ) (x : α) :
    ∀ l : List α, List.Pairwise (fun a b => key b ≤ key a) l →
      List.Pairwise (fun a b => key b ≤ key a) (insertDescBy key x l) := by
  intro l
  induction l with
  | nil => intro _; simp [insertDescBy]
  | cons y ys ih =>
      intro hl
      rcases List.pairwise_cons.1 hl with ⟨hy, hys⟩
      simp only [insertDescBy]
      by_cases hc : key x < key y
      · rw [if_pos hc]
        refine List.pairwise_cons.2 ⟨?_, ih hys⟩
        intro z hz
        rcases List.mem_cons.1 ((insertDescBy_perm key x ys).mem_iff.1 hz) with rfl | hz'
        · exact le_of_lt hc
        · exact hy z hz'
      · rw [if_neg hc]
        refine List.pairwise_cons.2 ⟨?_, hl⟩
        intro z hz
        rcases List.mem_cons.1 hz with rfl | hz'
        · exact le_of_not_lt hc
        · exact le_trans (hy z hz') (le_of_not_lt hc)

theorem sortDescBy_sortedDesc {α : Type} (key : α → ℚ) :
    ∀ l : List α, List.Pairwise (fun a b => key b ≤ key a) (sortDescBy key l) := by
  intro l
  induction l with
  | nil => simp [sortDescBy]
  | cons x xs ih => exact insertDescBy_sorted key x _ ih

/-- Stability of the insertion: inserting an element whose original
position precedes every position in the list keeps the stable descending
order `beats`. -/
theorem insertDescBy_stable (x : Nat × ℚ × List Char) :
    ∀ l : List (Nat × ℚ × List Char), List.Pairwise beats l →
      (∀ y ∈ l, x.1 < y.1) →
      List.Pairwise beats (insertDescBy (fun e => e.2.1) x l) := by
  intro l
  induction l with
  | nil => intro _ _; simp [insertDescBy]
  | cons y ys ih =>
      intro hl hx
      rcases List.pairwise_cons.1 hl with ⟨hy, hys⟩
      simp only [insertDescBy]
      by_cases hc : x.2.1 < y.2.1
      · rw [if_pos hc]
        refine List.pairwise_cons.2
          ⟨?_, ih hys (fun z hz => hx z (List.mem_cons_of_mem _ hz))⟩
        intro z hz
        rcases List.mem_cons.1
            ((insertDescBy_perm (fun e => e.2.1) x ys).mem_iff.1 hz) with rfl | hz'
        · exact Or.inl hc
        · exact hy z hz'
      · rw [if_neg hc]
        refine List.pairwise_cons.2 ⟨?_, hl⟩
        intro z hz
        rcases List.mem_cons.1 hz with rfl | hz'
        · rcases lt_or_eq_of_le (le_of_not_lt hc) with h | h
          · exact Or.inl h
          · exact Or.inr ⟨h.symm, hx z (List.mem_cons_self _ _)⟩
        · rcases hy z hz' with h | ⟨heq, _⟩
          · exact Or.inl (lt_of_lt_of_le h (le_of_not_lt hc))
          · rcases lt_or_eq_of_le (le_of_not_lt hc) with h2 | h2
            · have h3 : z.2.1 < x.2.1 := by rw [← heq]; exact h2
              exact Or.inl h3
            · have h3 : x.2.1 = z.2.1 := by rw [← h2, heq]
              exact Or.inr ⟨h3, hx z (List.mem_cons_of_mem _ hz')⟩

/-- Stability of the sort: if the input carries strictly increasing
original positions, the output is ordered by descending score with ties
broken by original position. -/
theorem sortDescBy_stable :
    ∀ l : List (Nat × ℚ × List Char),
      List.Pairwise (fun a b => a.1 < b.1) l →
      List.Pairwise beats (sortDescBy (fun e => e.2.1) l) := by
  intro l
  induction l with
  | nil => simp [sortDescBy]
  | cons x xs ih =>
      intro h
      rcases List.pairwise_cons.1 h with ⟨hx, hxs⟩
      refine insertDescBy_stable x _ (ih hxs) ?_
      intro y hy
      exact hx y ((sortDescBy_perm _ xs).mem_iff.1 hy)

theorem insertDescBy_map_snd (x : Nat × ℚ × List Char) :
    ∀ l : List (Nat × ℚ × List Char),
      (insertDescBy (fun e => e.2.1) x l).map Prod.snd =
        insertDescBy Prod.fst x.2 (l.map Prod.snd) := by
  intro l
  induction l with
  | nil => rfl
  | cons y ys ih =>
      simp only [insertDescBy, List.map_cons]
      by_cases hc : x.2.1 < y.2.1
      · rw [if_pos hc, if_pos hc, List.map_cons, ih]
      · rw [if_neg hc, if_neg hc, List.map_cons, List.map_cons]

theorem sortDescBy_map_snd :
    ∀ l : List (Nat × ℚ × List Char),
      (sortDescBy (fun e => e.2.1) l).map Prod.snd =
        sortDescBy Prod.fst (l.map Prod.snd) := by
  intro l
  induction l with
  | nil => rfl
  | cons x xs ih =>
      simp only [sortDescBy]
      rw [insertDescBy_map_snd, ih]

theorem fst_le_of_mem_enumFrom {α : Type} :
    ∀ (l : List α) (n : Nat) (y : Nat × α), y ∈ List.enumFrom n l → n ≤ y.1 := by
  intro l
  induction l with
  | nil => intro n y h; simp [List.enumFrom] at h
  | cons a l ih =>
      intro n y h
      rcases List.mem_cons.1 h with rfl | h'
      · exact le_refl n
      · exact le_trans (Nat.le_succ n) (ih (n + 1) y h')

theorem enumFrom_fst_lt {α : Type} :
    ∀ (l : List α) (n : Nat),
      List.Pairwise (fun a b : Nat × α => a.1 < b.1) (List.enumFrom n l) := by
  intro l
  induction l with
  | nil => intro n; simp [List.enumFrom]
  | cons a l ih =>
      intro n
      refine List.pairwise_cons.2 ⟨?_, ih (n + 1)⟩
      intro y hy
      exact lt_of_lt_of_le (Nat.lt_succ_self n) (fst_le_of_mem_enumFrom l (n + 1) y hy)

theorem enumFrom_map_snd {α : Type} :
    ∀ (l : List α) (n : Nat), (List.enumFrom n l).map Prod.snd = l := by
  intro l
  induction l with
  | nil => intro n; rfl
  | cons a l ih => intro n; simp only [List.enumFrom, List.map_cons, ih]

theorem sims_length_of_all_some (q : List ℚ) :
    ∀ store : List Chunk, (∀ c ∈ store, c.embedding.isSome = true) →
      (sims q store).length = store.length := by
  intro store
  induction store with
  | nil => intro _; rfl
  | cons c cs ih =>
      intro h
      have hc := h c (List.mem_cons_self _ _)
      rcases Option.isSome_iff_exists.1 hc with ⟨e, he⟩
      simp only [sims, List.filterMap_cons, he, Option.map_some']
      simp only [List.length_cons]
      have := ih (fun c hc => h c (List.mem_cons_of_mem _ hc))
      simpa [sims] using this

/-! ## Theorems for the claims about retrieval and the store -/

/-- Claim C4: retrieval is a pure function of the query and the store
(hence deterministic), and the ranking is stable — the indexed ranking is
a permutation of the scored entries that is ordered by descending score
with ties broken by the original store position, and `find_relevant_chunks`
is its erasure truncated to `num_results`. -/
theorem claim_C4 (q : List ℚ) (store : List Chunk) (k : Nat) :
    List.Pairwise beats (rankedIdx q store) ∧
    (rankedIdx q store).Perm (simsIdx q store) ∧
    find_relevant_chunks (some q) store k =
      if store = [] then []
      else ((rankedIdx q store).map (fun e => e.2.2)).take k := by
  refine ⟨?_, sortDescBy_perm _ _, ?_⟩
  · exact sortDescBy_stable _ (enumFrom_fst_lt (sims q store) 0)
  · by_cases hs : store = []
    · simp [find_relevant_chunks, hs]
    · simp only [find_relevant_chunks, if_neg hs]
      have h1 : (fun e : Nat × ℚ × List Char => e.2.2) = Prod.snd ∘ Prod.snd := rfl
      rw [h1, ← List.map_map]
      rw [show rankedIdx q store = sortDescBy (fun e => e.2.1) (simsIdx q store) from rfl]
      rw [sortDescBy_map_snd]
      rw [show simsIdx q store = List.enumFrom 0 (sims q store) from rfl]
      rw [enumFrom_map_snd]
      rw [List.map_take]

/-- Claim C6: every chunk inserted into the store at startup has a
present embedding (a chunk whose embedding call failed is skipped), and
only chunks with present embeddings participate in similarity scoring
(restricting the store to them leaves the scored list unchanged). -/
theorem claim_C6 (get_embedding : List Char → Option (List ℚ))
    (all_raw_text : List Char) (q : List ℚ) (store : List Chunk) :
    (∀ c ∈ load_documents_on_startup get_embedding all_raw_text,
      c.embedding.isSome = true) ∧
    sims q (store.filter (fun c => c.embedding.isSome)) = sims q store := by
  constructor
  · intro c hc
    simp only [load_documents_on_startup] at hc
    split at hc
    · simp at hc
    · rcases List.mem_filterMap.1 hc with ⟨t, _, ht⟩
      rcases Option.map_eq_some'.1 ht with ⟨v, _, hv⟩
      rw [← hv]
      rfl
  · induction store with
    | nil => rfl
    | cons c cs ih =>
        cases hemb : c.embedding with
        | none =>
            simp only [sims, List.filter_cons, hemb, Option.isSome_none,
              Bool.false_eq_true, if_false, List.filterMap_cons, Option.map_none']
            simpa [sims] using ih
        | some e =>
            simp only [sims, List.filter_cons, hemb, Option.isSome_some,
              if_true, List.filterMap_cons, Option.map_some']
            have := ih
            simp only [sims] at this
            rw [this]

/-- Witness for claim C6: with an always-succeeding embedding oracle and
the input `"a\n\nb"`, the single stored chunk has a present embedding. -/
theorem claim_C6_witness :
    (({ text := ['a', '\n', 'b'], embedding := some [(1 : ℚ)] } : Chunk)).embedding.isSome
      = true :=
  (claim_C6 (fun _ => some [(1 : ℚ)]) cx_text [] []).1 _ (by decide)

/-- Claim C7: when `num_results` is at least the store size (and every
stored chunk has a present embedding, as startup guarantees), retrieval
returns the whole store ranked by descending similarity — as many texts
as chunks, the untruncated ranking, sorted descending — and, being a
total function, it cannot fail. -/
theorem claim_C7 (q : List ℚ) (store : List Chunk) (k : Nat)
    (hk : store.length ≤ k) (hemb : ∀ c ∈ store, c.embedding.isSome = true) :
    (find_relevant_chunks (some q) store k).length = store.length ∧
    find_relevant_chunks (some q) store k =
      (sortDescBy Prod.fst (sims q store)).map Prod.snd ∧
    List.Pairwise (fun a b : ℚ × List Char => b.1 ≤ a.1)
      (sortDescBy Prod.fst (sims q store)) := by
  have hlen : (sims q store).length = store.length := sims_length_of_all_some q store hemb
  have hslen : (sortDescBy Prod.fst (sims q store)).length = (sims q store).length :=
    (sortDescBy_perm Prod.fst (sims q store)).length_eq
  have htake : (sortDescBy Prod.fst (sims q store)).take k =
      sortDescBy Prod.fst (sims q store) := by
    apply List.take_of_length_le
    omega
  by_cases hs : store = []
  · subst hs
    refine ⟨rfl, rfl, ?_⟩
    simp [sims, sortDescBy]
  · simp only [find_relevant_chunks, if_neg hs]
    rw [htake]
    refine ⟨?_, rfl, sortDescBy_sortedDesc Prod.fst _⟩
    rw [List.length_map, hslen, hlen]

/-- A concrete two-chunk store used by witnesses. -/
theorem claim_C7_witness :
    (find_relevant_chunks (some [(1 : ℚ)])
      [{ text := ['a'], embedding := some [(2 : ℚ)] },
       { text := ['b'], embedding := some [(1 : ℚ)] }] 5).length =
    ([{ text := ['a'], embedding := some [(2 : ℚ)] },
      { text := ['b'], embedding := some [(1 : ℚ)] }] : List Chunk).length :=
  (claim_C7 [(1 : ℚ)] _ 5 (by decide) (by decide)).1

/-- Claim C8: retrieval returns the empty sequence whenever the store is
empty or the query embedding is absent. -/
theorem claim_C8 (query_embedding : Option (List ℚ)) (store : List Chunk) (k : Nat)
    (h : store = [] ∨ query_embedding = none) :
    find_relevant_chunks query_embedding store k = [] := by
  rcases h with h | h
  · subst h
    cases query_embedding with
    | none => rfl
    | some q => simp [find_relevant_chunks]
  · subst h
    rfl

/-- Witness for claim C8 on the empty store. -/
theorem claim_C8_witness : find_relevant_chunks (some [(1 : ℚ)]) [] 3 = [] :=
  claim_C8 (some [(1 : ℚ)]) [] 3 (Or.inl rfl)

/-! ## Theorems for the claims about prompt composition, startup and /chat -/

/-- Claim C5, counterexample: with no retrieved texts, the composed
prompt for the question `"hi"` is
`"\n\n**USER QUESTION:** hi\n\n**AI RESPONSE:**"`, not the bare question
`"hi"` passed through unchanged. -/
theorem claim_C5_cx : full_prompt [] ['h', 'i'] ≠ ['h', 'i'] := by decide

/-- Claim C5 (amended): if the sequence of retrieved texts is empty, the
composed prompt omits the background-information section entirely — no
background header, content or instruction block — and consists of the
fixed question/response template with the user question embedded
unchanged: `"\n\n**USER QUESTION:** " + question + "\n\n**AI RESPONSE:**"`
(the same wrapping a direct-to-model chat through this handler would get,
but not the bare question itself). -/
theorem claim_C5_amended (user_message : List Char) :
    full_prompt [] user_message =
      "\n\n**USER QUESTION:** ".toList ++ user_message ++ "\n\n**AI RESPONSE:**".toList := by
  simp [full_prompt, context_prompt_part]

/-- Claim C9: when `GOOGLE_API_KEY` is absent from the environment,
startup raises (modelled as `Except.error`) with the line-33 message,
before any ingestion happens — the store is only ever built in the `ok`
branch — so the process never reaches serving. -/
theorem claim_C9 (get_embedding : List Char → Option (List ℚ)) (all_raw_text : List Char) :
    startup none get_embedding all_raw_text = Except.error key_error_msg := rfl

/-- Claim C10: the `/chat` handler returns HTTP 400 with the
`"Error: No message provided."` body when the `message` field is absent
or present with any falsy value (empty string, `0`, `false`, `null`,
empty array or object); the quantification over the embedding and
generation oracles shows neither is invoked — the response is independent
of them. -/
theorem claim_C10 (render : JVal → List Char)
    (get_embedding : List Char → Option (List ℚ))
    (generate_content : List Char → Except (List Char) (List Char))
    (document_data : List Chunk) (message : Option JVal)
    (h : message = none ∨ ∃ v, message = some v ∧ truthy v = false) :
    chat render get_embedding generate_content document_data message =
      (400, no_msg_error) := by
  rcases h with h | ⟨v, h, hv⟩
  · subst h
    rfl
  · subst h
    simp [chat, hv]

/-- Witness for claim C10 at the empty-string message. -/
theorem claim_C10_witness :
    chat (fun _ => []) (fun _ => none) (fun _ => Except.ok []) []
      (some (JVal.str [])) = (400, no_msg_error) :=
  claim_C10 (fun _ => []) (fun _ => none) (fun _ => Except.ok []) []
    (some (JVal.str [])) (Or.inr ⟨JVal.str [], rfl, rfl⟩)

end CoffeeBlog
